import Mathlib

/-!
# A shallow embedding of the onlyrules rule-generation core

This file models the rule parsing and multi-format generation pipeline of the
onlyrules repository: the rule parser (`src/core/parser.ts`), the filename
sanitizer (`src/utils/file-utils.ts`, duplicated as
`BaseRuleFormatter.sanitizeFileName` in `src/core/interfaces.ts`), the
formatter layer (`src/formatters/*.ts`), the append helper
(`appendRulesToFile`) and the generation pipeline
(`src/core/pipeline.ts`), and proves properties of the model.

Strings are modelled by Lean `String`s; the JavaScript regular-expression
operations used by the source are translated into explicit recursive
functions over `List Char` with the same matching semantics on the inputs
the program manipulates (ASCII text; the translation notes, at each point,
the corner of the regex semantics it implements).  Filesystem state is an
association list from paths to file contents, and the wall clock (used by
the append helper to date section names) is passed in as an explicit
`today` string.
-/

namespace OnlyRules

/-- Whitespace test matching the JavaScript `\s` class on the ASCII range
(space, tab, newline, carriage return, vertical tab, form feed). -/
def isWsChar (c : Char) : Bool :=
  c == ' ' || c == '\t' || c == '\n' || c == '\r' ||
    c == Char.ofNat 11 || c == Char.ofNat 12

/-- Drop trailing characters satisfying `isWsChar`. -/
def trimRightL (l : List Char) : List Char :=
  (l.reverse.dropWhile isWsChar).reverse

/-- Both-ends whitespace trim over a character list (JavaScript
`String.prototype.trim`). -/
def trimL (l : List Char) : List Char :=
  trimRightL (l.dropWhile isWsChar)

/-- JavaScript `s.trim()`. -/
def jsTrim (s : String) : String := ⟨trimL s.data⟩

/-- JavaScript `s.trimEnd()`. -/
def trimEndS (s : String) : String := ⟨trimRightL s.data⟩

/-- Does `l` start with `pat`? -/
def startsWithL : List Char → List Char → Bool
  | [], _ => true
  | _ :: _, [] => false
  | p :: ps, c :: cs => p == c && startsWithL ps cs

/-- Does the string `s` start with `pat`? -/
def startsWithS (s pat : String) : Bool := startsWithL pat.data s.data

/-- Index of the first occurrence of `pat` in `l`, if any. -/
def findSubL (pat : List Char) : List Char → Option Nat
  | [] => if pat.isEmpty then some 0 else none
  | c :: rest =>
      if startsWithL pat (c :: rest) then some 0
      else (findSubL pat rest).map (· + 1)

/-- Does `pat` occur inside `l`? -/
def containsSubL (pat l : List Char) : Bool := (findSubL pat l).isSome

/-- JavaScript `s.includes(pat)`. -/
def containsSubstr (s pat : String) : Bool := containsSubL pat.data s.data

/-- Split a character list on a separator character (JavaScript
`s.split(sep)`; always returns at least one piece). -/
def splitOnCharL (sep : Char) : List Char → List (List Char)
  | [] => [[]]
  | c :: rest =>
      if c == sep then [] :: splitOnCharL sep rest
      else
        match splitOnCharL sep rest with
        | [] => [[c]]
        | l :: ls => (c :: l) :: ls

/-- Split into lines at each newline (JavaScript `s.split('\n')`). -/
def splitLinesL (l : List Char) : List (List Char) := splitOnCharL '\n' l

/-- ASCII lowercasing of a string (JavaScript `s.toLowerCase()` on the
ASCII inputs this program handles). -/
def toLowerS (s : String) : String := ⟨s.data.map Char.toLower⟩

/-- Join a list of strings with a separator (JavaScript `arr.join(sep)`). -/
def joinWith (sep : String) : List String → String
  | [] => ""
  | [x] => x
  | x :: xs => x ++ sep ++ joinWith sep xs

/-- Last element of a list of char-list pieces, with default. -/
def lastPieceD (l : List (List Char)) : List Char :=
  match l with
  | [] => []
  | [x] => x
  | _ :: y :: rest => lastPieceD (y :: rest)

/-- `basename(p)`: the final path component (split on `/`). -/
def basenameOf (p : String) : String := ⟨lastPieceD (splitOnCharL '/' p.data)⟩

/-- `basename(p).split('.')[0]`: the part of the basename before the first
dot. -/
def firstDotComponent (s : String) : String :=
  match splitOnCharL '.' s.data with
  | [] => ""
  | piece :: _ => ⟨piece⟩

/-- `p.split('.').pop()`: the part of the path after the last dot (the whole
string when it has no dot, exactly as in JavaScript). -/
def lastDotComponent (p : String) : String := ⟨lastPieceD (splitOnCharL '.' p.data)⟩

/-!
## Filename sanitization

`toSnakeCase` (`src/utils/file-utils.ts`) and
`BaseRuleFormatter.sanitizeFileName` (`src/core/interfaces.ts`) are two
textually identical copies of the same transformation chain; both are
modelled by the single chain below.
-/

/-- Replace each maximal run of characters satisfying `p` by the single
character `repl`; the boolean argument records whether the scan is
currently inside such a run. -/
def collapseRunsByGo (p : Char → Bool) (repl : Char) : Bool → List Char → List Char
  | _, [] => []
  | inRun, c :: rest =>
      if p c then
        if inRun then collapseRunsByGo p repl true rest
        else repl :: collapseRunsByGo p repl true rest
      else c :: collapseRunsByGo p repl false rest

/-- Step `replace(/[\s_]+/g, '-')`: collapse each run of whitespace and
underscores into a single hyphen. -/
def collapseWsRuns (l : List Char) : List Char :=
  collapseRunsByGo (fun d => isWsChar d || d == '_') '-' false l

/-- Step `replace(/([a-z])([A-Z])/g, '$1-$2')`: insert a hyphen at each
lower-to-upper camelCase boundary; after a replacement the scan resumes
past the matched pair, as the JavaScript global replace does. -/
def camelHyphens : List Char → List Char
  | [] => []
  | [c] => [c]
  | c1 :: c2 :: rest =>
      if c1.isLower && c2.isUpper then c1 :: '-' :: c2 :: camelHyphens rest
      else c1 :: camelHyphens (c2 :: rest)

/-- Step `replace(/[^a-z0-9-]/g, '')` (applied after lowercasing). -/
def keepAlnumHyphen (l : List Char) : List Char :=
  l.filter (fun c => (c.isLower && c.isAlpha) || c.isDigit || c == '-')

/-- Step `replace(/^-+|-+$/g, '')`: strip leading and trailing hyphen runs. -/
def stripEdgeHyphens (l : List Char) : List Char :=
  ((l.dropWhile (· == '-')).reverse.dropWhile (· == '-')).reverse

/-- Step `replace(/[-]+/g, '-')`: collapse hyphen runs. -/
def collapseHyphens (l : List Char) : List Char :=
  collapseRunsByGo (· == '-') '-' false l

/-- `toSnakeCase` from `src/utils/file-utils.ts`: trim, collapse
whitespace/underscore runs to hyphens, hyphenate camelCase boundaries,
lowercase, drop the remaining non `[a-z0-9-]` characters, strip edge
hyphens, collapse repeated hyphens. -/
def toSnakeCase (s : String) : String :=
  ⟨collapseHyphens (stripEdgeHyphens (keepAlnumHyphen
      ((camelHyphens (collapseWsRuns (trimL s.data))).map Char.toLower)))⟩

/-- `BaseRuleFormatter.sanitizeFileName` (`src/core/interfaces.ts`), a
textually identical copy of `toSnakeCase`. -/
def sanitizeFileName (s : String) : String := toSnakeCase s

/-!
## Metadata values

Frontmatter values are run through `JSON.parse` with a fall-back to the raw
string (`DefaultRuleParser.extractMetadata`).  The code downstream only
inspects whether a value is a string (`typeof v === 'string'`), compares it
to string literals, and tests its truthiness, so the model classifies each
raw value into the JSON categories and keeps the source text of composite
values; escape sequences inside JSON strings do not occur in the documents
this development evaluates and are not modelled.
-/

/-- A frontmatter metadata value after the `JSON.parse`-with-fallback step. -/
inductive JsValue where
  | str (s : String)
  | num (raw : String)
  | bool (b : Bool)
  | null
  | arr (raw : String)
  | obj (raw : String)
deriving DecidableEq

/-- Consume one or more digits, returning the remainder. -/
def chompDigits1 (l : List Char) : Option (List Char) :=
  match l.span Char.isDigit with
  | ([], _) => none
  | (_ :: _, rest) => some rest

/-- Consume an optional JSON fraction part. -/
def chompFrac : List Char → Option (List Char)
  | '.' :: t => chompDigits1 t
  | l => some l

/-- Consume an optional JSON exponent part. -/
def chompExp : List Char → Option (List Char)
  | c :: t =>
      if c == 'e' || c == 'E' then
        match t with
        | s :: t2 => if s == '+' || s == '-' then chompDigits1 t2 else chompDigits1 t
        | [] => none
      else some (c :: t)
  | [] => some []

/-- Is `l` a complete JSON number literal? -/
def isJsonNumber (l : List Char) : Bool :=
  let l1 := match l with
    | '-' :: t => t
    | _ => l
  match chompDigits1 l1 with
  | none => false
  | some r1 =>
      match chompFrac r1 with
      | none => false
      | some r2 =>
          match chompExp r2 with
          | none => false
          | some r3 => r3.isEmpty

/-- Is `l` a double-quoted JSON string with no escapes or embedded quotes
(the only string shape appearing in the documents modelled here)? -/
def isSimpleJsonString (l : List Char) : Bool :=
  match l with
  | '"' :: rest =>
      match rest.reverse with
      | '"' :: mid => (mid.all fun c => !(c == '"' || c == '\\'))
      | _ => false
  | _ => false

/-- `JSON.parse(v)` with fall-back to the raw string, classifying the value
just finely enough for the `typeof`, equality and truthiness tests the
source performs on metadata (composite values keep their raw text). -/
def tryJsonParse (v : String) : JsValue :=
  if v == "true" then .bool true
  else if v == "false" then .bool false
  else if v == "null" then .null
  else if isJsonNumber v.data then .num v
  else if isSimpleJsonString v.data then
    .str ⟨(v.data.drop 1).reverse.drop 1 |>.reverse⟩
  else
    match v.data with
    | '[' :: _ => .arr v
    | '{' :: _ => .obj v
    | _ => .str v

/-- JavaScript truthiness of a metadata value (a number is truthy when it
has a digit other than zero, which is exact for zero-valued literals). -/
def jsTruthy : JsValue → Bool
  | .str s => s != ""
  | .num raw => raw.data.any fun c => c.isDigit && c != '0'
  | .bool b => b
  | .null => false
  | .arr _ => true
  | .obj _ => true

/-- Metadata maps: association lists in insertion order, assignment to an
existing key overwriting in place, as for a JavaScript object. -/
def metaLookup : List (String × JsValue) → String → Option JsValue
  | [], _ => none
  | (k, v) :: rest, key => if k == key then some v else metaLookup rest key

/-- Assign `key := v` in a metadata map (JavaScript object assignment). -/
def metaInsert : List (String × JsValue) → String → JsValue → List (String × JsValue)
  | [], key, v => [(key, v)]
  | (k, w) :: rest, key, v =>
      if k == key then (key, v) :: rest else (k, w) :: metaInsert rest key v

/-!
## The Rule record and the parser (`src/core/parser.ts`)
-/

/-- `ParsedRule` from `src/core/interfaces.ts`.  The parser only ever
produces string globs, so `glob` is modelled as an optional string. -/
structure Rule where
  name : String
  content : String
  metadata : List (String × JsValue)
  isRoot : Bool
  applyType : Option String
  description : Option String
  glob : Option String
deriving DecidableEq

/-- `DefaultRuleParser.isRootRule`. -/
def isRootRule (name : String) : Bool :=
  ["default", "root", "global", "main", "index"].contains (toLowerS name)

/-- The leading frontmatter group of `^---\n([\s\S]*?)\n---` (anchored at
the start of the string, lazy up to the first `\n---`). -/
def fmBlock (s : String) : Option String :=
  if startsWithL ("---\n".data) s.data then
    match findSubL ("\n---".data) (s.data.drop 4) with
    | some j => some ⟨(s.data.drop 4).take j⟩
    | none => none
  else none

/-- The title line of `^#\s+(.+)$/m`: the first line beginning with `#`
followed by at least one whitespace character and at least one further
character; the captured group is then trimmed.  (The corner case in which
`\s+` crosses a line boundary does not occur in the documents modelled
here.) -/
def titleOfLines : List (List Char) → Option String
  | [] => none
  | l :: rest =>
      match l with
      | '#' :: c :: t =>
          if isWsChar c && !t.isEmpty then some ⟨trimL (c :: t)⟩
          else if isWsChar c then titleOfLines rest
          else titleOfLines rest
      | _ => titleOfLines rest

/-- One frontmatter line of `extractMetadata`: split at the first colon when
it is not in position zero, trim key and value, and JSON-parse the value
with string fall-back. -/
def parseMetaLine (md : List (String × JsValue)) (line : List Char) : List (String × JsValue) :=
  match findSubL [':'] line with
  | some colonIndex =>
      if colonIndex > 0 then
        let key : String := ⟨trimL (line.take colonIndex)⟩
        let value : String := ⟨trimL (line.drop (colonIndex + 1))⟩
        metaInsert md key (tryJsonParse value)
      else md
  | none => md

/-- `DefaultRuleParser.extractMetadata`: a `title` from the first heading
line, then the key/value lines of a single leading frontmatter block. -/
def extractMetadata (content : String) : List (String × JsValue) :=
  let md : List (String × JsValue) :=
    match titleOfLines (splitLinesL content.data) with
    | some t => metaInsert [] "title" (.str t)
    | none => []
  match fmBlock content with
  | some inner => (splitLinesL inner.data).foldl parseMetaLine md
  | none => md

/-- Index of the last newline in a character list, if any. -/
def lastNewlinePos (l : List Char) : Option Nat :=
  match findSubL ['\n'] l.reverse with
  | some j => some (l.length - 1 - j)
  | none => none

/-- The group of `^---\s*\n([\s\S]*?)\n---`: after the opening `---` the
greedy `\s*\n` consumes the whitespace run up to its last newline, and the
lazy group extends to the first following `\n---`. -/
def fmOpenGroup (s : List Char) : Option (List Char) :=
  match s with
  | '-' :: '-' :: '-' :: rest =>
      let run := rest.takeWhile isWsChar
      match lastNewlinePos run with
      | none => none
      | some k =>
          let after := rest.drop (k + 1)
          match findSubL ("\n---".data) after with
          | some j => some (after.take j)
          | none => none
  | _ => none

/-- The `^name:\s*(.+)$/m` lookup inside a frontmatter block: the first
line starting with `name:` whose remainder is non-empty; the value is the
trimmed remainder. -/
def nameLineLookup : List (List Char) → Option String
  | [] => none
  | l :: ls =>
      if startsWithL ("name:".data) l then
        match l.drop 5 with
        | [] => nameLineLookup ls
        | restL => some ⟨trimL restL⟩
      else nameLineLookup ls

/-- `DefaultRuleParser.extractNameFromFrontmatter`. -/
def extractNameFromFrontmatter (content : String) : Option String :=
  match fmOpenGroup content.data with
  | none => none
  | some inner => nameLineLookup (splitLinesL inner)

/-- The single replacement of `replace(/^---\n[\s\S]*?\n---\n?/, '')`:
remove a leading frontmatter block, together with the optional newline
after its closing `---`, when the block is present. -/
def stripLeadingFrontmatter (s : String) : String :=
  if startsWithL ("---\n".data) s.data then
    match findSubL ("\n---".data) (s.data.drop 4) with
    | some j =>
        let rest := s.data.drop (4 + j + 4)
        match rest with
        | '\n' :: t => ⟨t⟩
        | _ => ⟨rest⟩
    | none => s
  else s

/-- Whether `replace(/^---\n[\s\S]*?\n---\n?/, '')` would find a leading
frontmatter block to remove in `s`. -/
def hasLeadingFrontmatter (s : String) : Bool :=
  startsWithL ("---\n".data) s.data &&
    (findSubL ("\n---".data) (s.data.drop 4)).isSome

/-- One step of the global scan of
`---\n[\s\S]*?\n---\n[\s\S]*?(?=---\n|$)` (global flag): the earliest match (an
opening `---\n`, the lazy group up to the first `\n---\n`, then the lazy
body up to the next `---\n` or the end of input), returned with the
remaining input after the match. -/
def splitFMFindMatch (s : List Char) : Option (List Char × List Char) :=
  match findSubL ("---\n".data) s with
  | none => none
  | some i =>
      let afterOpen := s.drop (i + 4)
      match findSubL ("\n---\n".data) afterOpen with
      | none => none
      | some j =>
          let k := i + 4 + j + 5
          let afterFM := s.drop k
          let p := k + ((findSubL ("---\n".data) afterFM).getD afterFM.length)
          some ((s.drop i).take (p - i), s.drop p)

/-- The `exec` loop of `DefaultRuleParser.splitByFrontmatter`, with fuel
(each match consumes at least one character, so `length + 1` suffices). -/
def splitFMAux : Nat → List Char → List (List Char)
  | 0, _ => []
  | Nat.succ fuel, s =>
      match splitFMFindMatch s with
      | none => []
      | some (m, rest) => trimL m :: splitFMAux fuel rest

/-- `DefaultRuleParser.splitByFrontmatter`. -/
def splitByFrontmatter (s : String) : List String :=
  (splitFMAux (s.data.length + 1) s.data).map fun l => ⟨l⟩

/-- Modelled from the spec: `DefaultRuleParser.extractDescriptionFromContent`
is called by `parseRules` but its body is absent from the sources provided;
§4.1 describes it as the content-derived description, the first
non-heading non-empty line. -/
def extractDescriptionFromContent (content : String) : Option String :=
  descFirstLine (splitLinesL content.data)
where descFirstLine : List (List Char) → Option String
  | [] => none
  | l :: rest =>
      match trimL l with
      | [] => descFirstLine rest
      | '#' :: _ => descFirstLine rest
      | t => some ⟨t⟩

/-- Modelled from the spec: `DefaultRuleParser.extractGlobFromContent` is
called by `parseRules` but its body is absent from the sources provided;
§4.1 describes the content-derived glob as "none by default". -/
def extractGlobFromContent (_content : String) : Option String := none

/-- The `applyType` resolution common to the `parseRules` branches:
`typeof metadata.applyType === 'string' ? metadata.applyType : 'manual'`. -/
def applyTypeOfMeta (md : List (String × JsValue)) : String :=
  match metaLookup md "applyType" with
  | some (.str s) => s
  | _ => "manual"

/-- `typeof metadata.description === 'string' ? metadata.description :
extractDescriptionFromContent(c)`. -/
def descriptionOfMeta (md : List (String × JsValue)) (c : String) : Option String :=
  match metaLookup md "description" with
  | some (.str s) => some s
  | _ => extractDescriptionFromContent c

/-- `typeof metadata.glob === 'string' ? metadata.glob :
extractGlobFromContent(c)`. -/
def globOfMeta (md : List (String × JsValue)) (c : String) : Option String :=
  match metaLookup md "glob" with
  | some (.str s) => some s
  | _ => extractGlobFromContent c

/-- The single-rule branches of `parseRules` (`.md` files and unknown
extensions): the whole text is one rule whose content is the trimmed
input, frontmatter included. -/
def mkSingleRule (content fileName : String) : Rule :=
  let metadata := extractMetadata content
  { name := fileName
    content := jsTrim content
    metadata
    isRoot := isRootRule fileName
    applyType := some (applyTypeOfMeta metadata)
    description := descriptionOfMeta metadata content
    glob := globOfMeta metadata content }

/-- The `metadata.name` fall-back of `parseMdcContent`: a truthy string
value is used, a truthy non-string or falsy value (or a missing key) falls
back to `{defaultName}-{i+1}`. -/
def nameFromMeta (md : List (String × JsValue)) (fallbackName : String) : String :=
  match metaLookup md "name" with
  | some v =>
      if jsTruthy v then
        match v with
        | .str s => s
        | _ => fallbackName
      else fallbackName
  | none => fallbackName

/-- One section of `parseMdcContent` (0-based index `i`). -/
def mdcRule (defaultName sec : String) (i : Nat) : Rule :=
  let metadata := extractMetadata sec
  let fallbackName := defaultName ++ "-" ++ toString (i + 1)
  let name :=
    match extractNameFromFrontmatter sec with
    | some s => if s != "" then s else nameFromMeta metadata fallbackName
    | none => nameFromMeta metadata fallbackName
  let contentWithoutFrontmatter := jsTrim (stripLeadingFrontmatter sec)
  { name
    content := contentWithoutFrontmatter
    metadata
    isRoot := isRootRule name
    applyType := some (applyTypeOfMeta metadata)
    description := descriptionOfMeta metadata contentWithoutFrontmatter
    glob := globOfMeta metadata contentWithoutFrontmatter }

/-- The section loop of `parseMdcContent`. -/
def mdcRules (defaultName : String) : List String → Nat → List Rule
  | [], _ => []
  | sec :: rest, i => mdcRule defaultName sec i :: mdcRules defaultName rest (i + 1)

/-- `DefaultRuleParser.parseMdcContent`. -/
def parseMdcContent (content defaultName : String) : List Rule :=
  let rules := mdcRules defaultName (splitByFrontmatter content) 0
  if rules.isEmpty then [mkSingleRule content defaultName] else rules

/-- `DefaultRuleParser.parseRules`.  Without a file path the file name is
`'default'` and the undefined extension matches neither `'md'` nor
`'mdc'`, so the whole text is one rule. -/
def parseRules (content : String) (filePath : Option String) : List Rule :=
  match filePath with
  | none => [mkSingleRule content "default"]
  | some p =>
      let fileName := firstDotComponent (basenameOf p)
      let fileExt := toLowerS (lastDotComponent p)
      if fileExt == "md" then [mkSingleRule content fileName]
      else if fileExt == "mdc" then parseMdcContent content fileName
      else [mkSingleRule content fileName]

/-- `DefaultRuleParser.validateRules`: every rule must have a truthy name
and content that remain non-empty after trimming (string truthiness is
non-emptiness, and `.trim().length > 0` is non-emptiness of the trim). -/
def validateRules (rules : List Rule) : Bool :=
  rules.all fun r =>
    r.name != "" && jsTrim r.name != "" && r.content != "" && jsTrim r.content != ""

/-!
## Filesystem and generation-result model

The output directory tree is the only mutable state the formatters touch;
it is modelled as an association list from paths to file contents.  A write
is an in-place overwrite (`fs.writeFile` on an existing path), and
`existsSync` is lookup success.  `path.join` is modelled as `/`-separated
concatenation, which is its behaviour on the normalized relative segments
the program uses.
-/

/-- Filesystem state: paths with their contents. -/
abbrev FS := List (String × String)

/-- `existsSync`, as a lookup. -/
def fsLookup : FS → String → Option String
  | [], _ => none
  | (p, c) :: rest, path => if p == path then some c else fsLookup rest path

/-- `existsSync(path)`. -/
def fsExists (fs : FS) (path : String) : Bool := (fsLookup fs path).isSome

/-- `writeFile(path, content)`: overwrite in place or create. -/
def fsWrite : FS → String → String → FS
  | [], path, content => [(path, content)]
  | (p, c) :: rest, path, content =>
      if p == path then (path, content) :: rest
      else (p, c) :: fsWrite rest path content

/-- `path.join(a, b)` on normalized segments. -/
def joinPath (a b : String) : String := a ++ "/" ++ b

/-- `path.join(a, b, c)` on normalized segments. -/
def joinPath3 (a b c : String) : String := joinPath (joinPath a b) c

/-- `RuleGenerationContext` from `src/core/interfaces.ts` (the optional
`ruleName` targeting field is never consulted by the code modelled here). -/
structure GenContext where
  outputDir : String
  force : Bool
  verbose : Bool
deriving DecidableEq

/-- `RuleGenerationResult` from `src/core/interfaces.ts`. -/
structure GenResult where
  format : String
  success : Bool
  filePath : Option String := none
  error : Option String := none
  ruleName : Option String := none
deriving DecidableEq

/-- `BaseRuleFormatter.checkFileExists`: throw (return an error) when the
path exists and `force` is not set. -/
def checkFileExists (fs : FS) (filePath : String) (force : Bool) : Except String Unit :=
  if fsExists fs filePath && !force then
    .error ("File " ++ filePath ++ " already exists. Use --force to overwrite.")
  else .ok ()

/-- A write that can raise an injected I/O exception `ioErr`, modelling a
filesystem failure inside the `fs.writeFile` call. -/
def writeFileE (ioErr : Option String) (fs : FS) (path content : String) :
    Except String FS :=
  match ioErr with
  | some e => .error e
  | none => .ok (fsWrite fs path content)

/-- `BaseRuleFormatter.determineApplyType`: `rule.applyType || 'auto'`. -/
def determineApplyType (r : Rule) : String :=
  match r.applyType with
  | some s => if s != "" then s else "auto"
  | none => "auto"

/-- One rendered line of `convertMetadataToFrontmatter`: strings are
double-quoted, booleans and numbers bare; array and object values keep
their raw text (the claims exercised here never render them). -/
def metaEntryLine : String × JsValue → String
  | (k, .str s) => k ++ ": \"" ++ s ++ "\""
  | (k, .bool b) => k ++ ": " ++ (if b then "true" else "false")
  | (k, .num raw) => k ++ ": " ++ raw
  | (k, .null) => k ++ ": null"
  | (k, .arr raw) => k ++ ": " ++ raw
  | (k, .obj raw) => k ++ ": " ++ raw

/-- `BaseRuleFormatter.convertMetadataToFrontmatter`. -/
def convertMetadataToFrontmatter (metadata : List (String × JsValue)) : String :=
  if metadata.isEmpty then ""
  else "---\n" ++ joinWith "\n" (metadata.map metaEntryLine) ++ "\n---"

/-- The `generateRule` try-block shared verbatim by the formatter classes:
resolve the output path, check existence against `force`, ensure the
directory (no observable state here), transform, write. -/
def generateRuleTry (formatId : String) (getOutputPath : Rule → GenContext → String)
    (transformContent : Rule → String) (ioErr : Option String)
    (r : Rule) (ctx : GenContext) (fs : FS) : Except String (GenResult × FS) :=
  let filePath := getOutputPath r ctx
  match checkFileExists fs filePath ctx.force with
  | .error e => .error e
  | .ok _ =>
      let content := transformContent r
      match writeFileE ioErr fs filePath content with
      | .error e => .error e
      | .ok fs2 =>
          .ok ({ format := formatId, success := true, filePath := some filePath,
                 ruleName := some r.name }, fs2)

/-- The catch-wrapper of `generateRule`: any exception is converted into a
failed result and the filesystem is left as it was. -/
def generateRuleWith (formatId : String) (getOutputPath : Rule → GenContext → String)
    (transformContent : Rule → String) (ioErr : Option String)
    (r : Rule) (ctx : GenContext) (fs : FS) : GenResult × FS :=
  match generateRuleTry formatId getOutputPath transformContent ioErr r ctx fs with
  | .ok out => out
  | .error e =>
      ({ format := formatId, success := false, error := some e,
         ruleName := some r.name }, fs)

/-!
## CursorFormatter (`src/formatters/cursor.ts`, current revision)
-/

namespace CursorFormatter

/-- `CursorFormatter.isRuleCompatible`: Cursor supports all rules. -/
def isRuleCompatible (_r : Rule) : Bool := true

/-- `CursorFormatter.getOutputPath`:
`.cursor/rules/{sanitize(rule.name)}.mdc` under the output directory. -/
def getOutputPath (r : Rule) (ctx : GenContext) : String :=
  let sanitizedName := sanitizeFileName (if r.name != "" then r.name else "default")
  joinPath3 ctx.outputDir ".cursor/rules" (sanitizedName ++ ".mdc")

/-- The Cursor frontmatter pipeline: the `alwaysApply` step, then
`addGlob`, then `addDescription` (each of the latter two contributing only
a truthy rule field). -/
def frontmatterMetadata (r : Rule) : List (String × JsValue) :=
  let m := metaInsert [] "alwaysApply" (.bool (determineApplyType r == "always"))
  let m :=
    match r.glob with
    | some g => if g != "" then metaInsert m "glob" (.str g) else m
    | none => m
  match r.description with
  | some d => if d != "" then metaInsert m "description" (.str d) else m
  | none => m

/-- `CursorFormatter.transformContent`: strip a pre-existing frontmatter
block, trim, and prepend the pipeline frontmatter when non-empty. -/
def transformContent (r : Rule) : String :=
  let content := jsTrim (stripLeadingFrontmatter r.content)
  let frontmatter := convertMetadataToFrontmatter (frontmatterMetadata r)
  if frontmatter != "" then frontmatter ++ "\n\n" ++ content else content

/-- `CursorFormatter.generateRule` (the shared try/catch body). -/
def generateRule (ioErr : Option String) (r : Rule) (ctx : GenContext) (fs : FS) :
    GenResult × FS :=
  generateRuleWith "cursor" getOutputPath transformContent ioErr r ctx fs

end CursorFormatter

/-!
## ClaudeRootFormatter and ClaudeMemoriesFormatter
(`src/formatters/claude-root.ts`, `src/formatters/claude-memories.ts`)
-/

namespace ClaudeRootFormatter

/-- `ClaudeRootFormatter.isRuleCompatible`: only root rules. -/
def isRuleCompatible (r : Rule) : Bool := r.isRoot

/-- `ClaudeRootFormatter.getOutputPath`: always
`join(outputDir, 'CLAUDE.md')`, independent of the rule. -/
def getOutputPath (_r : Rule) (ctx : GenContext) : String :=
  joinPath ctx.outputDir "CLAUDE.md"

/-- `ClaudeRootFormatter.transformContent`: plain markdown with any
leading frontmatter removed, trimmed. -/
def transformContent (r : Rule) : String :=
  jsTrim (stripLeadingFrontmatter r.content)

/-- `ClaudeRootFormatter.generateRule` (the shared try/catch body). -/
def generateRule (ioErr : Option String) (r : Rule) (ctx : GenContext) (fs : FS) :
    GenResult × FS :=
  generateRuleWith "claude-root" getOutputPath transformContent ioErr r ctx fs

end ClaudeRootFormatter

namespace ClaudeMemoriesFormatter

/-- `ClaudeMemoriesFormatter.isRuleCompatible`: only non-root rules. -/
def isRuleCompatible (r : Rule) : Bool := !r.isRoot

/-- `ClaudeMemoriesFormatter.getOutputPath`:
`.claude/memories/{rule.name || 'default'}.md` under the output directory. -/
def getOutputPath (r : Rule) (ctx : GenContext) : String :=
  joinPath3 ctx.outputDir ".claude/memories"
    ((if r.name != "" then r.name else "default") ++ ".md")

/-- `ClaudeMemoriesFormatter.transformContent`: plain markdown with any
leading frontmatter removed, trimmed. -/
def transformContent (r : Rule) : String :=
  jsTrim (stripLeadingFrontmatter r.content)

/-- `ClaudeMemoriesFormatter.generateRule` (the shared try/catch body). -/
def generateRule (ioErr : Option String) (r : Rule) (ctx : GenContext) (fs : FS) :
    GenResult × FS :=
  generateRuleWith "claude-memories" getOutputPath transformContent ioErr r ctx fs

end ClaudeMemoriesFormatter

/-- `GeminiRootFormatter.getOutputPath` (`src/formatters/gemini-root.ts`,
first revision): always `join(outputDir, 'GEMINI.md')`. -/
def GeminiRootFormatter.getOutputPath (_r : Rule) (ctx : GenContext) : String :=
  joinPath ctx.outputDir "GEMINI.md"

/-- `ClaudeRootFormatter.getOutputPath` from the revised formatter body
embedded in `src/formatters/cursor.ts`: unlike the dedicated module, it
appends a sanitized-rule-name filename under `defaultPath`. -/
def ClaudeRootFormatterRev2.getOutputPath (r : Rule) (ctx : GenContext) : String :=
  let sanitizedName := sanitizeFileName (if r.name != "" then r.name else "default")
  joinPath3 ctx.outputDir "CLAUDE.md" (sanitizedName ++ ".md")

/-- `GeminiRootFormatter.getOutputPath` from the second revision in
`src/formatters/gemini-root.ts`: likewise appends a sanitized-rule-name
filename under `defaultPath`. -/
def GeminiRootFormatterRev2.getOutputPath (r : Rule) (ctx : GenContext) : String :=
  let sanitizedName := sanitizeFileName (if r.name != "" then r.name else "default")
  joinPath3 ctx.outputDir "GEMINI.md" (sanitizedName ++ ".md")

/-- JavaScript `s.replace(pat, repl)` with a literal pattern: replace the
first occurrence only. -/
def replaceOnce (s pat repl : String) : String :=
  match findSubL pat.data s.data with
  | some i => ⟨s.data.take i ++ repl.data ++ s.data.drop (i + pat.data.length)⟩
  | none => s

/-!
## KiroFormatter (`src/formatters/kiro.ts`, pipeline-based revision)
-/

namespace KiroFormatter

/-- `KiroFormatter.isRuleCompatible`: Kiro supports all rules. -/
def isRuleCompatible (_r : Rule) : Bool := true

/-- `KiroFormatter.isDefaultFile`: the lowercased rule name contains one of
the default steering file stems (`defaultFiles` with `.md` removed). -/
def isDefaultFile (name : String) : Bool :=
  ["product.md", "tech.md", "structure.md"].any fun defaultFile =>
    containsSubstr (toLowerS name) (replaceOnce defaultFile ".md" "")

/-- The keyword indicators of `KiroFormatter.hasFilePatternHint`. -/
def kiroIndicators : List String :=
  ["component", "api", "test", "route", "endpoint", "tsx", "jsx", "vue",
   "react", "angular", "backend", "frontend", "database", "migration"]

/-- `KiroFormatter.hasFilePatternHint`: keyword scan over the lowercased
name and content. -/
def hasFilePatternHint (r : Rule) : Bool :=
  let lowerContent := toLowerS (r.name ++ " " ++ r.content)
  kiroIndicators.any fun indicator => containsSubstr lowerContent indicator

/-- `KiroFormatter.inferFilePattern`. -/
def inferFilePattern (r : Rule) : String :=
  let name := toLowerS r.name
  let content := toLowerS r.content
  if containsSubstr name "component" || containsSubstr content "component" then
    "components/**/*.\x7btsx,jsx,vue\x7d"
  else if containsSubstr name "api" || containsSubstr name "endpoint" then
    "app/api/**/*"
  else if containsSubstr name "test" then
    "**/*.\x7btest,spec\x7d.\x7bts,tsx,js,jsx\x7d"
  else if containsSubstr name "style" || containsSubstr name "css" then
    "**/*.\x7bcss,scss,sass,less\x7d"
  else if containsSubstr name "config" then
    "*.config.\x7bjs,ts,json\x7d"
  else
    "**/*.\x7bts,tsx,js,jsx\x7d"

/-- The smart-default branch of `KiroFormatter.createInclusionStep`. -/
def kiroDefaults (r : Rule) (metadata : List (String × JsValue)) :
    List (String × JsValue) :=
  if r.isRoot || isDefaultFile r.name then
    metaInsert metadata "inclusion" (.str "always")
  else if hasFilePatternHint r then
    metaInsert (metaInsert metadata "inclusion" (.str "fileMatch"))
      "fileMatchPattern" (.str (inferFilePattern r))
  else
    metaInsert metadata "inclusion" (.str "manual")

/-- `KiroFormatter.createInclusionStep`: keep a truthy explicit
`inclusion` (with its `fileMatchPattern` when it is `fileMatch`), apply
the smart defaults otherwise. -/
def createInclusionStep (r : Rule) (metadata : List (String × JsValue)) :
    List (String × JsValue) :=
  match metaLookup r.metadata "inclusion" with
  | some v =>
      if jsTruthy v then
        let m := metaInsert metadata "inclusion" v
        if v == .str "fileMatch" then
          match metaLookup r.metadata "fileMatchPattern" with
          | some pv => if jsTruthy pv then metaInsert m "fileMatchPattern" pv else m
          | none => m
        else m
      else kiroDefaults r metadata
  | none => kiroDefaults r metadata

/-- The Kiro frontmatter pipeline has the inclusion step as its only step. -/
def frontmatterMetadata (r : Rule) : List (String × JsValue) :=
  createInclusionStep r []

/-- `KiroFormatter.transformContent`: prepend the pipeline frontmatter
unless its only content is the default `inclusion: always`. -/
def transformContent (r : Rule) : String :=
  let frontmatter := convertMetadataToFrontmatter (frontmatterMetadata r)
  let metadata := frontmatterMetadata r
  let shouldAddFrontmatter :=
    metaLookup metadata "inclusion" != some (.str "always") ||
      decide (metadata.length > 1)
  if frontmatter != "" && shouldAddFrontmatter then
    frontmatter ++ "\n" ++ r.content
  else r.content

end KiroFormatter

/-!
## CodeBuddyFormatter (`src/formatters/codebuddy.ts`)
-/

namespace CodeBuddyFormatter

/-- `CodeBuddyFormatter.isRuleCompatible`: CodeBuddy supports all rules. -/
def isRuleCompatible (_r : Rule) : Bool := true

/-- `CodeBuddyFormatter.getOutputPath`:
`.codebuddy/rules/{sanitize(rule.name)}.md` under the output directory. -/
def getOutputPath (r : Rule) (ctx : GenContext) : String :=
  let sanitizedName := sanitizeFileName (if r.name != "" then r.name else "default")
  joinPath3 ctx.outputDir ".codebuddy/rules" (sanitizedName ++ ".md")

/-- One metadata line of the CodeBuddy header:
`typeof value === 'string' ? value : JSON.stringify(value)`. -/
def metaValuePlain : JsValue → String
  | .str s => s
  | .num raw => raw
  | .bool b => if b then "true" else "false"
  | .null => "null"
  | .arr raw => raw
  | .obj raw => raw

/-- `CodeBuddyFormatter.createHeader`. -/
def createHeader (r : Rule) : String :=
  let titleLines : List String :=
    ["# " ++ (if r.name != "" then r.name else "CodeBuddy Development Rule"), ""]
  let metaLines : List String :=
    if r.metadata.isEmpty then []
    else
      ["## Metadata", "", "```yaml"] ++
        (r.metadata.map fun kv => kv.1 ++ ": " ++ metaValuePlain kv.2) ++
        ["```", ""]
  let typeLines : List String :=
    ["## Rule Type", "",
     "- **Type**: " ++
       (if r.isRoot then "Global Rule (Always Active)" else "Project-Specific Rule"),
     "- **AI Assistant**: Tencent Cloud CodeBuddy",
     "- **Supported IDEs**: VS Code, JetBrains IDEs", ""]
  let usageLines : List String :=
    ["## Usage", "", "This rule will be automatically loaded by CodeBuddy when:"] ++
      (if r.isRoot then ["- CodeBuddy is active in your IDE (always applied)"]
       else
         ["- You are working in this project directory",
          "- CodeBuddy detects the `.codebuddy` configuration"]) ++
      [""]
  joinWith "\n" (titleLines ++ metaLines ++ typeLines ++ usageLines)

/-- Does a raw line match `^#+\s` (one or more hashes then whitespace)? -/
def headingTail : List Char → Bool
  | '#' :: rest => headingTail rest
  | c :: _ => isWsChar c
  | [] => false

/-- The heading test of `formatContent` on a raw line. -/
def lineIsHeading (l : String) : Bool :=
  match l.data with
  | '#' :: rest => headingTail rest
  | _ => false

/-- One line of `CodeBuddyFormatter.formatContent`: list items and plain
text pass through, empty lines stay empty, headings are bumped one level. -/
def formatLine (l : String) : String :=
  let t := jsTrim l
  if startsWithS t "-" || startsWithS t "*" then l
  else if t == "" then ""
  else if lineIsHeading l then "#" ++ l
  else l

/-- `CodeBuddyFormatter.formatContent`. -/
def formatContent (content : String) (_r : Rule) : String :=
  let processed := (splitLinesL content.data).map fun l => formatLine ⟨l⟩
  joinWith "\n"
    (["## Development Guidelines", ""] ++ processed ++
      ["", "---", "", "### CodeBuddy Integration Notes", "",
       "- CodeBuddy will use these guidelines to provide context-aware code suggestions",
       "- The AI assistant will follow these rules when generating code completions",
       "- Use CodeBuddy\x27s chat feature to ask questions about these guidelines",
       "- These rules work with CodeBuddy\x27s MCP (Model Context Protocol) integration"])

/-- `CodeBuddyFormatter.transformContent`: header, blank line, formatted
content — prepended on every application. -/
def transformContent (r : Rule) : String :=
  createHeader r ++ "\n\n" ++ formatContent r.content r

end CodeBuddyFormatter

/-!
## The append helper (`appendRulesToFile` and `generateSectionName`)

`new Date().toISOString().slice(0, 10)` is the wall clock and is passed in
as the explicit `today` string (a `YYYY-MM-DD` date).
-/

/-- Does `s` end with `suf`? -/
def endsWithS (s suf : String) : Bool :=
  startsWithL suf.data.reverse s.data.reverse

/-- `isUrl` from `src/utils/reader.ts`: an `http:` or `https:` URL (the
spec describes the detection as a simple scheme check). -/
def isUrl (input : String) : Bool :=
  startsWithS input "http://" || startsWithS input "https://"

/-- `node:path` `basename(p, ext)`: the final component with a trailing
`ext` removed. -/
def basenameDropExt (p ext : String) : String :=
  let b := basenameOf p
  if endsWithS b ext && b != ext then ⟨b.data.take (b.data.length - ext.data.length)⟩
  else b

/-- `replace(/\.(md|txt)$/, '')`. -/
def dropMdTxtExt (s : String) : String :=
  if endsWithS s ".md" then ⟨s.data.take (s.data.length - 3)⟩
  else if endsWithS s ".txt" then ⟨s.data.take (s.data.length - 4)⟩
  else s

/-- `new URL(u).hostname` with the leading `www.` removed: the text after
`://` up to the first `/`, `:`, `?` or `#` (an empty hostname stands for
the invalid-URL exception path of the source). -/
def urlDomain (u : String) : String :=
  match findSubL ("://".data) u.data with
  | none => ""
  | some i =>
      let rest := (u.data.drop (i + 3)).takeWhile fun c =>
        !(c == '/' || c == ':' || c == '?' || c == '#')
      if startsWithL ("www.".data) rest then ⟨rest.drop 4⟩ else ⟨rest⟩

/-- `generateSectionName` (the URL and local-file fall-backs both append
`-` and the current date): the frontmatter `name` of the content wins when
truthy; otherwise the name is derived from the source file or URL and
date-stamped. -/
def generateSectionName (sourceFile content today : String) : String :=
  let fallback :=
    if isUrl sourceFile then
      let domain := urlDomain sourceFile
      if domain != "" then domain ++ "-" ++ today
      else "remote-rules-" ++ today
    else
      dropMdTxtExt (basenameDropExt sourceFile ".mdc") ++ "-" ++ today
  match extractNameFromFrontmatter content with
  | some s => if s != "" then s else fallback
  | none => fallback

/-- `appendRulesToFile`: `newRulesContent` is the text read from the
source, `existing` the current target file content (`none` when the target
does not exist). -/
def appendRulesToFile (newRulesContent : String) (existing : Option String)
    (sourceFile today : String) : Except String String :=
  if jsTrim newRulesContent == "" then
    .error "Error appending rules: Source file is empty or contains no content"
  else
    match existing with
    | some existingContent =>
        if jsTrim existingContent != "" then
          let sectionName := generateSectionName sourceFile newRulesContent today
          let cleanExistingContent := trimEndS existingContent
          let frontmatter := "---\nname: " ++ sectionName ++ "\n---"
          .ok (cleanExistingContent ++ "\n\n" ++ frontmatter ++ "\n\n" ++
            jsTrim newRulesContent ++ "\n")
        else .ok (jsTrim newRulesContent ++ "\n")
    | none => .ok (jsTrim newRulesContent ++ "\n")

/-!
## The generation pipeline (`src/core/pipeline.ts`)

The formatter set is the polymorphic collaborator of the pipeline loop; a
`Formatter` packages the three capabilities the loop uses.  The formatters
modelled above are total functions, mirroring the fact that every
`generateRule` body catches its own exceptions (the loop keeps a second
catch of its own that the modelled formatters never reach).
-/

/-- A registered formatter, as consumed by the pipeline loop. -/
structure Formatter where
  id : String
  isRuleCompatible : Rule → Bool
  generateRule : Rule → GenContext → FS → GenResult × FS

/-- The serialized frontmatter of the IDE-style dump:
`key: (typeof value === 'string' ? value : JSON.stringify(value))`. -/
def ideStyleFrontmatter (metadata : List (String × JsValue)) : String :=
  joinWith "\n" (metadata.map fun kv => kv.1 ++ ": " ++ CodeBuddyFormatter.metaValuePlain kv.2)

/-- The per-rule body of `handleIdeStyleGeneration`: skip unnamed rules,
re-serialize metadata as frontmatter, respect the exists-without-force
guard. -/
def ideWriteRules (ideOutputDir : String) (force : Bool) :
    List Rule → FS → List GenResult × FS
  | [], fs => ([], fs)
  | r :: rest, fs =>
      if r.name == "" then ideWriteRules ideOutputDir force rest fs
      else
        let fileName := toSnakeCase r.name
        let ruleFilePath := joinPath ideOutputDir (fileName ++ ".mdc")
        if fsExists fs ruleFilePath && !force then
          let res : GenResult :=
            { format := "ide-style", success := false,
              error := some ("File " ++ ruleFilePath ++
                " already exists. Use --force to overwrite."),
              ruleName := some r.name, filePath := some ruleFilePath }
          let (more, fs2) := ideWriteRules ideOutputDir force rest fs
          (res :: more, fs2)
        else
          let fileContent :=
            if r.metadata.isEmpty then r.content
            else "---\n" ++ ideStyleFrontmatter r.metadata ++ "\n---\n\n" ++ r.content
          let fs1 := fsWrite fs ruleFilePath fileContent
          let res : GenResult :=
            { format := "ide-style", success := true,
              ruleName := some r.name, filePath := some ruleFilePath }
          let (more, fs2) := ideWriteRules ideOutputDir force rest fs1
          (res :: more, fs2)

/-- Options of `DefaultRuleGenerationPipeline.execute`, with the input
already resolved to raw text plus its source path (the Source Reader is a
collaborator outside the core). -/
structure PipelineOptions where
  input : String
  filePath : Option String
  outputDir : String
  force : Bool
  verbose : Bool
  ideStyle : Bool
  ideFolder : Option String

/-- `handleIdeStyleGeneration`: a flat dump of every named rule, only when
more than one rule was parsed. -/
def handleIdeStyleGeneration (rules : List Rule) (opts : PipelineOptions) (fs : FS) :
    List GenResult × FS :=
  if rules.length ≤ 1 then ([], fs)
  else
    let folder :=
      match opts.ideFolder with
      | some f => if f != "" then f else ".rules"
      | none => ".rules"
    ideWriteRules (joinPath opts.outputDir folder) opts.force rules fs

/-- The inner loop of `execute`: one formatter over every rule, skipping
incompatible rules without recording a result. -/
def runRules (f : Formatter) (ctx : GenContext) : List Rule → FS → List GenResult × FS
  | [], fs => ([], fs)
  | r :: rest, fs =>
      if f.isRuleCompatible r then
        let (res, fs1) := f.generateRule r ctx fs
        let (more, fs2) := runRules f ctx rest fs1
        (res :: more, fs2)
      else runRules f ctx rest fs

/-- The outer loop of `execute`: every selected formatter in order. -/
def runFormatters (ctx : GenContext) : List Formatter → List Rule → FS → List GenResult × FS
  | [], _, fs => ([], fs)
  | f :: rest, rules, fs =>
      let (rs1, fs1) := runRules f ctx rules fs
      let (rs2, fs2) := runFormatters ctx rest rules fs1
      (rs1 ++ rs2, fs2)

/-- `DefaultRuleGenerationPipeline.execute`: parse, validate (fatal on
failure, wrapped by the outer catch into the pipeline error), then the
IDE-style dump and the formatter × rule loop.  The outcome is paired with
the final filesystem so that an aborted run demonstrably writes nothing. -/
def executePipeline (formatters : List Formatter) (opts : PipelineOptions) (fs : FS) :
    Except String (List GenResult) × FS :=
  let rules := parseRules opts.input opts.filePath
  if validateRules rules then
    let ctx : GenContext :=
      { outputDir := opts.outputDir, force := opts.force, verbose := opts.verbose }
    let (ideResults, fs1) :=
      if opts.ideStyle then handleIdeStyleGeneration rules opts fs else ([], fs)
    let (results, fs2) := runFormatters ctx formatters rules fs1
    (.ok (ideResults ++ results), fs2)
  else (.error "Pipeline execution failed: Invalid rules content", fs)

/-- Is an `Except` outcome a success? -/
def isOkE : Except String (List GenResult) → Bool
  | .ok _ => true
  | .error _ => false

/-- The Cursor formatter as registered with the pipeline (no injected I/O
fault). -/
def cursorFormatterReg : Formatter :=
  { id := "cursor", isRuleCompatible := CursorFormatter.isRuleCompatible,
    generateRule := CursorFormatter.generateRule none }

/-- The Claude root formatter as registered with the pipeline. -/
def claudeRootFormatterReg : Formatter :=
  { id := "claude-root", isRuleCompatible := ClaudeRootFormatter.isRuleCompatible,
    generateRule := ClaudeRootFormatter.generateRule none }

/-- The Claude memories formatter as registered with the pipeline. -/
def claudeMemoriesFormatterReg : Formatter :=
  { id := "claude-memories", isRuleCompatible := ClaudeMemoriesFormatter.isRuleCompatible,
    generateRule := ClaudeMemoriesFormatter.generateRule none }

/-!
## Concrete instances used in the verification statements
-/

/-- The two-section MDC document of the parser section-count property. -/
def mdcTwoSectionDoc : String :=
  "---\nname: rule1\n---\nbody1\n\n---\nname: rule2\n---\nbody2"

/-- An MDC document whose second section has a frontmatter block but an
empty body. -/
def mdcEmptyBodyDoc : String :=
  "---\nname: a\n---\nbody\n\n---\nname: b\n---\n"

/-- Pipeline options feeding `mdcEmptyBodyDoc` to the pipeline. -/
def emptyBodyOpts : PipelineOptions :=
  { input := mdcEmptyBodyDoc, filePath := some "rules.mdc", outputDir := "out",
    force := false, verbose := false, ideStyle := true, ideFolder := none }

/-- A single-rule markdown document that begins with a frontmatter block. -/
def mdWithFrontmatterDoc : String := "---\nname: test\n---\nbody text"

/-- A plain non-root rule. -/
def sampleRule : Rule :=
  { name := "test-rule", content := "hello", metadata := [], isRoot := false,
    applyType := some "manual", description := none, glob := none }

/-- A root rule named `main`. -/
def mainRule : Rule :=
  { name := "main", content := "root body", metadata := [], isRoot := true,
    applyType := some "manual", description := none, glob := none }

/-- A root rule named `default`. -/
def defaultRule : Rule :=
  { name := "default", content := "root body", metadata := [], isRoot := true,
    applyType := some "manual", description := none, glob := none }

/-- A generation context without `force`. -/
def ctxNoForce : GenContext := { outputDir := "out", force := false, verbose := false }

/-- A generation context with `force`. -/
def ctxForce : GenContext := { outputDir := "out", force := true, verbose := false }

/-- A filesystem on which the sample rule's Cursor target already exists. -/
def fsWithCursorTarget : FS := [("out/.cursor/rules/test-rule.mdc", "old content")]

/-- A metadata-free non-root rule whose name contains `tech`. -/
def kiroTechRule : Rule :=
  { name := "tech-notes", content := "body", metadata := [], isRoot := false,
    applyType := some "manual", description := none, glob := none }

end OnlyRules

open OnlyRules

/-!
## Helper lemmas
-/

/-- `List.all` is false exactly when some element fails the predicate. -/
theorem allEqFalseIff {α : Type} (p : α → Bool) :
    ∀ l : List α, l.all p = false ↔ ∃ x ∈ l, p x = false := by
  intro l
  induction l with
  | nil => simp
  | cons a t ih =>
      simp only [List.all_cons, Bool.and_eq_false_iff, ih, List.mem_cons]
      constructor
      · rintro (h | ⟨x, hx, hpx⟩)
        · exact ⟨a, Or.inl rfl, h⟩
        · exact ⟨x, Or.inr hx, hpx⟩
      · rintro ⟨x, hx | hx, hpx⟩
        · exact Or.inl (hx ▸ hpx)
        · exact Or.inr ⟨x, hx, hpx⟩

/-- The per-rule validation predicate fails exactly on an empty trimmed
name or empty trimmed content. -/
theorem ruleValidEqFalseIff (r : Rule) :
    (r.name != "" && jsTrim r.name != "" && r.content != "" && jsTrim r.content != "")
        = false ↔
      jsTrim r.name = "" ∨ jsTrim r.content = "" := by
  simp only [Bool.and_eq_false_iff, bne_eq_false_iff_eq]
  constructor
  · rintro (((h | h) | h) | h)
    · exact Or.inl (by rw [h]; rfl)
    · exact Or.inl h
    · exact Or.inr (by rw [h]; rfl)
    · exact Or.inr h
  · rintro (h | h)
    · exact Or.inl (Or.inl (Or.inr h))
    · exact Or.inr h

/-- A list starts with itself. -/
theorem startsWithLSelf : ∀ l : List Char, startsWithL l l = true
  | [] => rfl
  | c :: rest => by simp [startsWithL, startsWithLSelf rest]

/-- A list contains itself as a contiguous run. -/
theorem containsSubRefl : ∀ l : List Char, containsSubL l l = true := by
  intro l
  cases l with
  | nil => rfl
  | cons c rest =>
      simp [containsSubL, findSubL, startsWithLSelf]

/-- A contiguous run of `ys` is preserved under prepending `xs`. -/
theorem containsSubAppendLeft (pat ys : List Char) (h : containsSubL pat ys = true) :
    ∀ xs : List Char, containsSubL pat (xs ++ ys) = true := by
  intro xs
  induction xs with
  | nil => exact h
  | cons c rest ih =>
      show (findSubL pat (c :: (rest ++ ys))).isSome = true
      rw [findSubL]
      by_cases hs : startsWithL pat (c :: (rest ++ ys)) = true
      · rw [if_pos hs]; rfl
      · rw [if_neg hs]
        rcases hfind : findSubL pat (rest ++ ys) with _ | n
        · exact absurd ih (by simp [containsSubL, hfind])
        · rfl

/-- Writing then reading back the same path yields the written content. -/
theorem fsLookupFsWrite : ∀ (fs : FS) (p c : String),
    fsLookup (fsWrite fs p c) p = some c := by
  intro fs p c
  induction fs with
  | nil => simp [fsWrite, fsLookup]
  | cons kv rest ih =>
      obtain ⟨q, d⟩ := kv
      by_cases h : (q == p) = true
      · simp [fsWrite, fsLookup, h]
      · simp only [Bool.not_eq_true] at h
        simp [fsWrite, fsLookup, h, ih]

/-- The contents of the section rules of `parseMdcContent` are the
sections with their leading frontmatter stripped and trimmed. -/
theorem mdcRulesMapContent (d : String) :
    ∀ (l : List String) (i : Nat),
      (mdcRules d l i).map (fun r => r.content) =
        l.map fun sec => jsTrim (stripLeadingFrontmatter sec) := by
  intro l
  induction l with
  | nil => intro i; rfl
  | cons s rest ih => intro i; simp [mdcRules, ih (i + 1)]; rfl

/-- Every rule built by the section loop has `isRoot` determined by
`isRootRule` of its own name. -/
theorem mdcRulesIsRootAll (d : String) :
    ∀ (l : List String) (i : Nat),
      ((mdcRules d l i).all fun r => r.isRoot == isRootRule r.name) = true := by
  intro l
  induction l with
  | nil => intro i; rfl
  | cons s rest ih =>
      intro i
      simp only [mdcRules, List.all_cons, Bool.and_eq_true]
      constructor
      · show (isRootRule (mdcRule d s i).name == isRootRule (mdcRule d s i).name) = true
        exact beq_self_eq_true _
      · exact ih (i + 1)

/-- A single-rule branch result also has `isRoot` determined by
`isRootRule` of its name. -/
theorem singleRuleIsRootAll (content fileName : String) :
    (([mkSingleRule content fileName]).all fun r => r.isRoot == isRootRule r.name) = true := by
  simp only [List.all_cons, List.all_nil, Bool.and_true]
  show (isRootRule (mkSingleRule content fileName).name ==
    isRootRule (mkSingleRule content fileName).name) = true
  exact beq_self_eq_true _

/-!
## Claims
-/

/-- C4: parsing the two-section MDC document
`---\nname: rule1\n---\nbody1\n\n---\nname: rule2\n---\nbody2` with an
`.mdc` source path yields exactly two rules, named `rule1`/`rule2`, with
frontmatter-stripped trimmed bodies `body1`/`body2`. -/
theorem claim_C4 :
    (parseRules mdcTwoSectionDoc (some "rules.mdc")).length = 2 ∧
    (parseRules mdcTwoSectionDoc (some "rules.mdc")).map
        (fun r => (r.name, r.content)) =
      [("rule1", "body1"), ("rule2", "body2")] := by
  constructor
  · decide
  · decide

/-- C6: the shared filename-sanitization helper satisfies the three
specified equations (`sanitizeFileName` and `toSnakeCase` are the two
textually identical copies of the helper). -/
theorem claim_C6 :
    sanitizeFileName "NextJs Prompt" = "next-js-prompt" ∧
    sanitizeFileName "React Best Practices!" = "react-best-practices" ∧
    sanitizeFileName "TypeScript Rules & Standards" = "type-script-rules-standards" ∧
    toSnakeCase "NextJs Prompt" = "next-js-prompt" ∧
    toSnakeCase "React Best Practices!" = "react-best-practices" ∧
    toSnakeCase "TypeScript Rules & Standards" = "type-script-rules-standards" := by
  refine ⟨?_, ?_, ?_, ?_, ?_, ?_⟩ <;> decide


/-- C1 (amended): validation fails exactly when at least one candidate
rule has an empty trimmed name or empty trimmed content; the pipeline run
aborts with the validation error, writing nothing, exactly in that case,
and proceeds for any input whose candidate rules all have non-empty name
and content. -/
theorem claim_C1 (formatters : List Formatter) (opts : PipelineOptions) (fs : FS) :
    (validateRules (parseRules opts.input opts.filePath) = false ↔
      ∃ r ∈ parseRules opts.input opts.filePath,
        jsTrim r.name = "" ∨ jsTrim r.content = "") ∧
    (executePipeline formatters opts fs =
        ((Except.error "Pipeline execution failed: Invalid rules content" :
          Except String (List GenResult)), fs) ↔
      validateRules (parseRules opts.input opts.filePath) = false) ∧
    isOkE (executePipeline formatters opts fs).1 =
      validateRules (parseRules opts.input opts.filePath) := by
  refine ⟨?_, ?_, ?_⟩
  · rw [validateRules, allEqFalseIff]
    constructor
    · rintro ⟨r, hr, hf⟩
      exact ⟨r, hr, (ruleValidEqFalseIff r).mp hf⟩
    · rintro ⟨r, hr, hf⟩
      exact ⟨r, hr, (ruleValidEqFalseIff r).mpr hf⟩
  · cases h : validateRules (parseRules opts.input opts.filePath) with
    | true => simp [executePipeline, h]
    | false => simp [executePipeline, h]
  · cases h : validateRules (parseRules opts.input opts.filePath) with
    | true => simp [executePipeline, h, isOkE]
    | false => simp [executePipeline, h, isOkE]

/-- C1 counterexample: on an MDC document whose second section has an
empty body, validation fails and the run aborts although the candidates do
not all have an empty name or content — the first candidate is fully
valid. -/
theorem claim_C1_counterexample :
    validateRules (parseRules mdcEmptyBodyDoc (some "rules.mdc")) = false ∧
    (parseRules mdcEmptyBodyDoc (some "rules.mdc")).map
        (fun r => (jsTrim r.name != "", jsTrim r.content != "")) =
      [(true, true), (true, false)] ∧
    executePipeline [cursorFormatterReg] emptyBodyOpts [] =
      ((Except.error "Pipeline execution failed: Invalid rules content" :
        Except String (List GenResult)), []) := by
  refine ⟨?_, ?_, ?_⟩
  · decide
  · decide
  · rfl

/-- C2 (amended): frontmatter is stripped (and the result trimmed) only
for rules parsed out of the multi-section `.mdc` dialect; for a `.md`
source the rule's content is the whole input trimmed, with any leading
frontmatter block retained. -/
theorem claim_C2 :
    (∀ c : String,
      (parseRules c (some "rules.md")).map (fun r => r.content) = [jsTrim c]) ∧
    (∀ c : String,
      (parseRules c (some "rules.mdc")).map (fun r => r.content) =
        if splitByFrontmatter c = [] then [jsTrim c]
        else (splitByFrontmatter c).map fun sec =>
          jsTrim (stripLeadingFrontmatter sec)) := by
  constructor
  · intro c
    rfl
  · intro c
    have e : parseRules c (some "rules.mdc") = parseMdcContent c "rules" := rfl
    rw [e, parseMdcContent]
    cases h : splitByFrontmatter c with
    | nil =>
        rw [if_pos rfl]
        rfl
    | cons s rest =>
        rw [if_neg (show ¬(s :: rest = ([] : List String)) by simp)]
        rw [if_neg (show ¬((mdcRules "rules" (s :: rest) 0).isEmpty = true) by
          simp [mdcRules])]
        exact mdcRulesMapContent "rules" (s :: rest) 0

/-- C2 counterexample: a single-rule `.md` document beginning with a
`---`-delimited frontmatter block parses into a rule whose content still
contains the complete frontmatter block. -/
theorem claim_C2_counterexample :
    (parseRules mdWithFrontmatterDoc (some "rules.md")).map (fun r => r.content) =
      ["---\nname: test\n---\nbody text"] ∧
    containsSubstr "---\nname: test\n---\nbody text" "---\nname: test\n---" = true := by
  refine ⟨?_, ?_⟩
  · decide
  · decide

/-- C5: the Claude root formatter accepts exactly the root rules, the
Claude memories formatter exactly the non-root ones — so every rule is
accepted by exactly one of the two — and the parser computes `isRoot` of
every rule it produces as the case-insensitive membership of the rule name
in \x7bdefault, root, global, main, index\x7d. -/
theorem claim_C5 :
    (∀ r : Rule, ClaudeRootFormatter.isRuleCompatible r = r.isRoot) ∧
    (∀ r : Rule, ClaudeMemoriesFormatter.isRuleCompatible r = !r.isRoot) ∧
    (∀ r : Rule,
      (ClaudeRootFormatter.isRuleCompatible r !=
        ClaudeMemoriesFormatter.isRuleCompatible r) = true) ∧
    (∀ name : String, isRootRule name = true ↔
      toLowerS name = "default" ∨ toLowerS name = "root" ∨ toLowerS name = "global" ∨
        toLowerS name = "main" ∨ toLowerS name = "index") ∧
    (∀ (c : String) (p : Option String),
      ((parseRules c p).all fun r => r.isRoot == isRootRule r.name) = true) := by
  refine ⟨fun r => rfl, fun r => rfl, ?_, ?_, ?_⟩
  · intro r
    cases h : r.isRoot with
    | true =>
        show (ClaudeRootFormatter.isRuleCompatible r !=
          ClaudeMemoriesFormatter.isRuleCompatible r) = true
        rw [show ClaudeRootFormatter.isRuleCompatible r = r.isRoot from rfl]
        rw [show ClaudeMemoriesFormatter.isRuleCompatible r = !r.isRoot from rfl]
        rw [h]
        rfl
    | false =>
        rw [show ClaudeRootFormatter.isRuleCompatible r = r.isRoot from rfl]
        rw [show ClaudeMemoriesFormatter.isRuleCompatible r = !r.isRoot from rfl]
        rw [h]
        rfl
  · intro name
    simp [isRootRule]
  · intro c p
    rcases p with _ | path
    · exact singleRuleIsRootAll c "default"
    · have e : parseRules c (some path) =
          (if toLowerS (lastDotComponent path) == "md" then
            [mkSingleRule c (firstDotComponent (basenameOf path))]
          else if toLowerS (lastDotComponent path) == "mdc" then
            parseMdcContent c (firstDotComponent (basenameOf path))
          else [mkSingleRule c (firstDotComponent (basenameOf path))]) := rfl
      rw [e]
      generalize firstDotComponent (basenameOf path) = fn
      generalize toLowerS (lastDotComponent path) = ext
      by_cases h1 : (ext == "md") = true
      · rw [if_pos h1]
        exact singleRuleIsRootAll c fn
      · rw [if_neg h1]
        by_cases h2 : (ext == "mdc") = true
        · rw [if_pos h2]
          have e2 : parseMdcContent c fn =
              (if (mdcRules fn (splitByFrontmatter c) 0).isEmpty then
                [mkSingleRule c fn]
              else mdcRules fn (splitByFrontmatter c) 0) := rfl
          rw [e2]
          by_cases h3 : ((mdcRules fn (splitByFrontmatter c) 0).isEmpty) = true
          · rw [if_pos h3]
            exact singleRuleIsRootAll c fn
          · rw [if_neg h3]
            exact mdcRulesIsRootAll fn (splitByFrontmatter c) 0
        · rw [if_neg h2]
          exact singleRuleIsRootAll c fn

/-- C3: with an existing target and no `force`, `generateRule` returns a
failed result whose error mentions "already exists" and leaves the
filesystem untouched; with `force` it overwrites and succeeds; and an I/O
exception raised during the call is caught and converted into a failed
result (the call is a total function into results — nothing propagates). -/
theorem claim_C3 (r : Rule) (ctx : GenContext) (fs : FS) (ioErr : Option String) :
    (fsExists fs (CursorFormatter.getOutputPath r ctx) = true → ctx.force = false →
      CursorFormatter.generateRule ioErr r ctx fs =
        ({ format := "cursor", success := false,
           error := some ("File " ++ CursorFormatter.getOutputPath r ctx ++
             " already exists. Use --force to overwrite."),
           ruleName := some r.name }, fs) ∧
      containsSubstr ("File " ++ CursorFormatter.getOutputPath r ctx ++
        " already exists. Use --force to overwrite.") "already exists" = true) ∧
    (ctx.force = true → ioErr = none →
      CursorFormatter.generateRule ioErr r ctx fs =
        ({ format := "cursor", success := true,
           filePath := some (CursorFormatter.getOutputPath r ctx),
           ruleName := some r.name },
         fsWrite fs (CursorFormatter.getOutputPath r ctx)
           (CursorFormatter.transformContent r)) ∧
      fsLookup (fsWrite fs (CursorFormatter.getOutputPath r ctx)
          (CursorFormatter.transformContent r))
        (CursorFormatter.getOutputPath r ctx) =
          some (CursorFormatter.transformContent r)) ∧
    (∀ e : String, ioErr = some e →
      (fsExists fs (CursorFormatter.getOutputPath r ctx) = false ∨ ctx.force = true) →
      CursorFormatter.generateRule ioErr r ctx fs =
        ({ format := "cursor", success := false, error := some e,
           ruleName := some r.name }, fs)) := by
  refine ⟨?_, ?_, ?_⟩
  · intro hex hforce
    constructor
    · rw [CursorFormatter.generateRule, generateRuleWith, generateRuleTry,
        checkFileExists]
      rw [if_pos (by rw [hex, hforce]; rfl)]
    · have hd : ("File " ++ CursorFormatter.getOutputPath r ctx ++
          " already exists. Use --force to overwrite.").data =
          ("File " ++ CursorFormatter.getOutputPath r ctx).data ++
            (" already exists. Use --force to overwrite." : String).data := by
        rw [String.data_append]
      rw [containsSubstr, hd]
      exact containsSubAppendLeft _ _ (by decide) _
  · intro hforce hio
    constructor
    · rw [CursorFormatter.generateRule, generateRuleWith, generateRuleTry,
        checkFileExists]
      rw [if_neg (by rw [hforce]; simp)]
      rw [hio]
      rfl
    · exact fsLookupFsWrite fs _ _
  · intro e hio hor
    rw [CursorFormatter.generateRule, generateRuleWith, generateRuleTry,
      checkFileExists]
    have hguard : (fsExists fs (CursorFormatter.getOutputPath r ctx) &&
        !ctx.force) = false := by
      rcases hor with h | h
      · rw [h]; rfl
      · rw [h]; simp
    rw [if_neg (by rw [hguard]; simp)]
    rw [hio]
    rfl

/-- C3 witness: the three branches exercised on concrete inputs — an
existing target without force, an existing target with force, and an
injected write failure on a fresh target. -/
theorem claim_C3_witness :
    (CursorFormatter.generateRule none sampleRule ctxNoForce fsWithCursorTarget =
      ({ format := "cursor", success := false,
         error := some ("File " ++ CursorFormatter.getOutputPath sampleRule ctxNoForce ++
           " already exists. Use --force to overwrite."),
         ruleName := some sampleRule.name }, fsWithCursorTarget) ∧
      containsSubstr ("File " ++ CursorFormatter.getOutputPath sampleRule ctxNoForce ++
        " already exists. Use --force to overwrite.") "already exists" = true) ∧
    (CursorFormatter.generateRule none sampleRule ctxForce fsWithCursorTarget =
      ({ format := "cursor", success := true,
         filePath := some (CursorFormatter.getOutputPath sampleRule ctxForce),
         ruleName := some sampleRule.name },
       fsWrite fsWithCursorTarget (CursorFormatter.getOutputPath sampleRule ctxForce)
         (CursorFormatter.transformContent sampleRule)) ∧
      fsLookup (fsWrite fsWithCursorTarget
          (CursorFormatter.getOutputPath sampleRule ctxForce)
          (CursorFormatter.transformContent sampleRule))
        (CursorFormatter.getOutputPath sampleRule ctxForce) =
          some (CursorFormatter.transformContent sampleRule)) ∧
    CursorFormatter.generateRule (some "EIO: disk failure") sampleRule ctxNoForce [] =
      ({ format := "cursor", success := false, error := some "EIO: disk failure",
         ruleName := some sampleRule.name }, []) := by
  refine ⟨?_, ?_, ?_⟩
  · exact (claim_C3 sampleRule ctxNoForce fsWithCursorTarget none).1 (by decide) rfl
  · exact (claim_C3 sampleRule ctxForce fsWithCursorTarget none).2.1 rfl rfl
  · exact (claim_C3 sampleRule ctxNoForce [] (some "EIO: disk failure")).2.2
      "EIO: disk failure" rfl (Or.inl (by decide))

/-- C7 (amended): the dedicated root-file modules compute
`join(outputDir, defaultPath)` independently of the rule, so two distinct
compatible rules collide on one path; but the revised root formatters (the
later revisions embedded in `cursor.ts` and `gemini-root.ts`) append a
sanitized-rule-name filename, so their paths do depend on the rule name. -/
theorem claim_C7 :
    (∀ (r : Rule) (ctx : GenContext),
      ClaudeRootFormatter.getOutputPath r ctx = joinPath ctx.outputDir "CLAUDE.md") ∧
    (∀ (r : Rule) (ctx : GenContext),
      GeminiRootFormatter.getOutputPath r ctx = joinPath ctx.outputDir "GEMINI.md") ∧
    (∀ (r1 r2 : Rule) (ctx : GenContext),
      ClaudeRootFormatter.getOutputPath r1 ctx = ClaudeRootFormatter.getOutputPath r2 ctx) ∧
    (∀ (r1 r2 : Rule) (ctx : GenContext),
      GeminiRootFormatter.getOutputPath r1 ctx = GeminiRootFormatter.getOutputPath r2 ctx) ∧
    ((ClaudeRootFormatterRev2.getOutputPath mainRule ctxNoForce ==
      ClaudeRootFormatterRev2.getOutputPath defaultRule ctxNoForce) = false) := by
  refine ⟨fun r ctx => rfl, fun r ctx => rfl, fun r1 r2 ctx => rfl,
    fun r1 r2 ctx => rfl, by decide⟩

/-- C7 counterexample: the revised `ClaudeRootFormatter` (root-file
category) produces name-dependent paths — two compatible root rules get
distinct paths, neither equal to `join(outputDir, defaultPath)`. -/
theorem claim_C7_counterexample :
    ClaudeRootFormatterRev2.getOutputPath mainRule ctxNoForce =
      "out/CLAUDE.md/main.md" ∧
    ClaudeRootFormatterRev2.getOutputPath defaultRule ctxNoForce =
      "out/CLAUDE.md/default.md" ∧
    ((ClaudeRootFormatterRev2.getOutputPath mainRule ctxNoForce ==
      joinPath ctxNoForce.outputDir "CLAUDE.md") = false) ∧
    ((GeminiRootFormatterRev2.getOutputPath mainRule ctxNoForce ==
      GeminiRootFormatterRev2.getOutputPath defaultRule ctxNoForce) = false) ∧
    ClaudeRootFormatter.isRuleCompatible mainRule = true ∧
    ClaudeRootFormatter.isRuleCompatible defaultRule = true := by
  refine ⟨?_, ?_, ?_, ?_, ?_, ?_⟩ <;> decide

/-- A string contains its own suffix. -/
theorem containsSubstrAppendRight (a suffixPart : String) :
    containsSubstr (a ++ suffixPart) suffixPart = true := by
  rw [containsSubstr, String.data_append]
  exact containsSubAppendLeft _ _ (containsSubRefl _) _

/-- C8 (amended): appending to an existing non-empty target inserts a
`---`-delimited separator block followed by the trimmed appended content,
with exactly one blank line on each side of the separator; the separator
name is the source content's own frontmatter `name` when that is present,
and only otherwise a source-derived name carrying the current date in
`YYYY-MM-DD` form. -/
theorem claim_C8 (existingContent newContent sourceFile today : String)
    (h1 : jsTrim newContent ≠ "") (h2 : jsTrim existingContent ≠ "") :
    appendRulesToFile newContent (some existingContent) sourceFile today =
      Except.ok (trimEndS existingContent ++ "\n\n" ++
        ("---\nname: " ++ generateSectionName sourceFile newContent today ++ "\n---") ++
        "\n\n" ++ jsTrim newContent ++ "\n") ∧
    (extractNameFromFrontmatter newContent = none →
      containsSubstr (generateSectionName sourceFile newContent today) today = true) := by
  constructor
  · rw [appendRulesToFile]
    rw [if_neg (by simp [h1])]
    rw [if_pos (by simp [h2])]
  · intro h3
    have e : generateSectionName sourceFile newContent today =
        (if isUrl sourceFile then
          (if urlDomain sourceFile != "" then urlDomain sourceFile ++ "-" ++ today
           else "remote-rules-" ++ today)
        else dropMdTxtExt (basenameDropExt sourceFile ".mdc") ++ "-" ++ today) := by
      unfold generateSectionName
      rw [h3]
    rw [e]
    by_cases hu : isUrl sourceFile = true
    · rw [if_pos hu]
      by_cases hd : (urlDomain sourceFile != "") = true
      · rw [if_pos hd]
        exact containsSubstrAppendRight _ _
      · rw [if_neg hd]
        exact containsSubstrAppendRight _ _
    · rw [if_neg hu]
      exact containsSubstrAppendRight _ _

/-- C8 witness: appending a plain body to an existing file inserts the
date-stamped separator with the specified blank-line layout. -/
theorem claim_C8_witness :
    appendRulesToFile "New rule body" (some "# Old") "team-rules.md" "2026-10-12" =
      Except.ok "# Old\n\n---\nname: team-rules-2026-10-12\n---\n\nNew rule body\n" ∧
    containsSubstr "team-rules-2026-10-12" "2026-10-12" = true := by
  constructor
  · exact (claim_C8 "# Old" "New rule body" "team-rules.md" "2026-10-12"
      (by decide) (by decide)).1
  · exact (claim_C8 "# Old" "New rule body" "team-rules.md" "2026-10-12"
      (by decide) (by decide)).2 (by decide)

/-- C8 counterexample: when the appended source document itself carries a
frontmatter `name`, the separator takes that name verbatim — it contains
no digits at all, hence no date in `YYYY-MM-DD` form — refuting the claim
that the separator name embeds the current date for every non-empty
source document. -/
theorem claim_C8_counterexample :
    appendRulesToFile "---\nname: custom-section\n---\nhello" (some "# Old")
        "extra.md" "2026-10-12" =
      Except.ok
        "# Old\n\n---\nname: custom-section\n---\n\n---\nname: custom-section\n---\nhello\n" ∧
    generateSectionName "extra.md" "---\nname: custom-section\n---\nhello" "2026-10-12" =
      "custom-section" ∧
    containsSubstr "custom-section" "2026-10-12" = false ∧
    ("custom-section".data.all fun c => !c.isDigit) = true := by
  refine ⟨?_, ?_, ?_, ?_⟩
  · rfl
  · decide
  · decide
  · decide

/-- C9 (amended): the frontmatter-stripping step applied to content with
no leading frontmatter block is a no-op, so the strip-and-trim formatters
(claude-root, claude-memories) leave already-clean (trimmed,
frontmatter-free) content unchanged — idempotence on already-clean
content; the CodeBuddy formatter (see the counterexample) is excluded:
its transformContent wraps a header and footer on every application. -/
theorem claim_C9 (c : String) (r : Rule)
    (h1 : hasLeadingFrontmatter c = false) (h2 : jsTrim c = c) :
    stripLeadingFrontmatter c = c ∧
    ClaudeRootFormatter.transformContent { r with content := c } = c ∧
    ClaudeMemoriesFormatter.transformContent { r with content := c } = c := by
  have hstrip : stripLeadingFrontmatter c = c := by
    rw [stripLeadingFrontmatter]
    by_cases hs : startsWithL ("---\n".data) c.data = true
    · rw [hasLeadingFrontmatter, hs] at h1
      cases hfind : findSubL ("\n---".data) (c.data.drop 4) with
      | none =>
          rw [if_pos hs]
      | some j =>
          rw [hfind] at h1
          simp at h1
    · rw [if_neg hs]
  refine ⟨hstrip, ?_, ?_⟩
  · show jsTrim (stripLeadingFrontmatter c) = c
    rw [hstrip]
    exact h2
  · show jsTrim (stripLeadingFrontmatter c) = c
    rw [hstrip]
    exact h2

/-- C9 witness: clean content is fixed by the stripping formatters. -/
theorem claim_C9_witness :
    stripLeadingFrontmatter "hello world" = "hello world" ∧
    ClaudeRootFormatter.transformContent { sampleRule with content := "hello world" } =
      "hello world" ∧
    ClaudeMemoriesFormatter.transformContent { sampleRule with content := "hello world" } =
      "hello world" := by
  refine ⟨?_, ?_, ?_⟩
  · exact (claim_C9 "hello world" sampleRule (by decide) (by decide)).1
  · exact (claim_C9 "hello world" sampleRule (by decide) (by decide)).2.1
  · exact (claim_C9 "hello world" sampleRule (by decide) (by decide)).2.2

set_option maxRecDepth 4000 in
/-- C9 counterexample: CodeBuddy's transformContent is not idempotent —
applied to a rule whose content is already CodeBuddy's own output, it
produces a different string (the header and footer are wrapped again). -/
theorem claim_C9_counterexample :
    ((CodeBuddyFormatter.transformContent
        { sampleRule with
          content := CodeBuddyFormatter.transformContent sampleRule } ==
      CodeBuddyFormatter.transformContent sampleRule)) = false := by
  decide

/-- C10: a rule with no `inclusion` metadata that is root or whose
lowercased name contains a Kiro default-file keyword resolves to the
`always` inclusion mode, and — that being the only metadata — the Kiro
transformContent suppresses the frontmatter and returns the content
unchanged. -/
theorem claim_C10 (r : Rule)
    (h1 : metaLookup r.metadata "inclusion" = none)
    (h2 : r.isRoot = true ∨ KiroFormatter.isDefaultFile r.name = true) :
    KiroFormatter.frontmatterMetadata r = [("inclusion", JsValue.str "always")] ∧
    KiroFormatter.transformContent r = r.content := by
  have hmeta : KiroFormatter.frontmatterMetadata r =
      [("inclusion", JsValue.str "always")] := by
    rw [KiroFormatter.frontmatterMetadata, KiroFormatter.createInclusionStep, h1,
      KiroFormatter.kiroDefaults]
    rcases h2 with h | h
    · rw [if_pos (by rw [h]; rfl)]
      rfl
    · rw [if_pos (by rw [h]; simp)]
      rfl
  refine ⟨hmeta, ?_⟩
  rw [KiroFormatter.transformContent, hmeta]
  rw [if_neg (by decide)]

/-- C10 witness: a non-root rule whose name contains `tech` and that has
no metadata resolves to `always` and is emitted without frontmatter. -/
theorem claim_C10_witness :
    KiroFormatter.frontmatterMetadata kiroTechRule =
      [("inclusion", JsValue.str "always")] ∧
    KiroFormatter.transformContent kiroTechRule = "body" := by
  constructor
  · exact (claim_C10 kiroTechRule rfl (Or.inr (by decide))).1
  · exact (claim_C10 kiroTechRule rfl (Or.inr (by decide))).2
